import Mathlib

/-!
Verification of the InsightPDF repository's natural-language specification
against its source code, via a shallow embedding in Lean 4.

The embedded code comes from:
* `nbackend/migrations/001_add_advanced_features.sql` (summaries table columns
  and backfill),
* `frontend/src/components/dashboard/EnhancedSummaryDisplay.tsx`
  (`handleRefine`, `highlightText`, memory-type display),
* `frontend/src/lib/api-client.ts` and the updated api-client variant
  (authenticated fetch operations, `downloadSummary` filename logic,
  `refineSummary` action unions),
* `frontend/src/services/api.ts` (axios response interceptor),
* the services layer (`downloadSummary` with a fixed local filename,
  `RefinementAction`).

The backend summarization engine (`app/services/advanced_summarizer.py`) is not
part of the source tree; where a claim depends on it, the definition is
modelled from the specification (sections 4.1-4.5) and the in-repo feature
document, and is marked `Modelled from the spec:` in its doc comment.
-/

namespace InsightPDF

/-! Basic character and list utilities -/

/-- ASCII word character, as in the JavaScript regex class `\w`
(letters, digits, underscore). -/
def isWordChar (c : Char) : Bool :=
  c.isAlpha || c.isDigit || c = '_'

/-- Wordness of an optional character; out-of-string counts as non-word,
matching JavaScript word-boundary semantics. -/
def wordness : Option Char → Bool
  | none => false
  | some c => isWordChar c

/-- Case-insensitive character equality (ASCII lowercase folding). -/
def ciCharEq (a b : Char) : Bool :=
  a.toLower = b.toLower

/-- Case-insensitive test that `pat` matches the front of `cs`. -/
def ciPrefixEq : List Char → List Char → Bool
  | [], _ => true
  | _ :: _, [] => false
  | p :: ps, c :: cs => ciCharEq p c && ciPrefixEq ps cs

/-- Case-insensitive substring occurrence of `pat` inside `cs`. -/
def ciSub (pat : List Char) : List Char → Bool
  | [] => pat.isEmpty
  | c :: rest => ciPrefixEq pat (c :: rest) || ciSub pat rest

/-- Exact (case-sensitive) prefix test on character lists. -/
def litPrefixEq : List Char → List Char → Bool
  | [], _ => true
  | _ :: _, [] => false
  | p :: ps, c :: cs => (p = c) && litPrefixEq ps cs

/-- One step of the run splitter: extend the current run on a kept
character, otherwise flush the current run (if nonempty) to the output. -/
def runStep (keep : Char → Bool) (c : Char) (acc : List Char × List (List Char)) :
    List Char × List (List Char) :=
  if keep c then (c :: acc.1, acc.2)
  else ([], if acc.1.isEmpty then acc.2 else acc.1 :: acc.2)

/-- Maximal runs of characters satisfying `keep`, in order; separator
characters are dropped.  Used to model `re.findall`/`re.split`-style
tokenization. -/
def runsBy (keep : Char → Bool) (cs : List Char) : List (List Char) :=
  let r := cs.foldr (runStep keep) ([], [])
  if r.1.isEmpty then r.2 else r.1 :: r.2

/-- First-occurrence deduplication: keeps the first copy of each element,
skipping elements already seen. -/
def uniqAux (seen : List String) : List String → List String
  | [] => []
  | t :: ts => if t ∈ seen then uniqAux seen ts else t :: uniqAux (t :: seen) ts

/-- Deduplicate a list of strings preserving first-occurrence order. -/
def uniqFirst (l : List String) : List String :=
  uniqAux [] l

/-- Proposition that `suffix` is a suffix of `s`, on the underlying character data
(models JavaScript/Python "ends with"). -/
def endsIn (s suffix : String) : Prop :=
  suffix.data <:+ s.data

/-! C1: summaries table schema and memory-type display

From `nbackend/migrations/001_add_advanced_features.sql` and
`EnhancedSummaryDisplay.tsx` lines 193-210. -/

/-- The privacy/memory columns of a row of the `summaries` table
(migration lines 19-26). -/
structure SummaryRow where
  is_private : Bool
  memory_type : String
  deriving DecidableEq, Repr

/-- A row inserted relying on the migration's column defaults:
`is_private BOOLEAN DEFAULT FALSE`, `memory_type VARCHAR(20) DEFAULT
'short_term'` (migration lines 25-26). -/
def insertWithDefaults : SummaryRow :=
  { is_private := false, memory_type := "short_term" }

/-- The migration's backfill statement (line 38):
`UPDATE summaries SET memory_type = 'long_term' WHERE memory_type =
'short_term'`, applied to one row.  It reads only `memory_type`, never
`is_private`. -/
def migrationBackfill (r : SummaryRow) : SummaryRow :=
  if r.memory_type = "short_term" then { r with memory_type := "long_term" } else r

/-- The invariant claimed by the specification: the memory classification is
`short_term` exactly when the privacy flag is set. -/
def memoryInvariant (r : SummaryRow) : Prop :=
  r.memory_type = "short_term" ↔ r.is_private = true

instance (r : SummaryRow) : Decidable (memoryInvariant r) := by
  unfold memoryInvariant; infer_instance

/-- The memory label rendered by `EnhancedSummaryDisplay.tsx` lines 197-207:
`metadata.isPrivate ? "Short-term" : "Long-term"`. -/
def displayedMemoryLabel (isPrivate : Bool) : String :=
  if isPrivate then "Short-term" else "Long-term"

/-! C8: refinement action sets

From the updated api-client (part of the repository whose filename is
unknown; its `refineSummary` signature lists seven actions),
`frontend/src/lib/api-client.ts` line 109 (three actions), and the
services layer `RefinementAction` type (three actions). -/

/-- Modelled from the spec: the Refinement Engine
(`advanced_summarizer.py`, not under the source tree) accepts the
enumerated action set of specification section 4.5; the in-repo feature
document lists the same seven options. -/
def engineRefinementActions : List String :=
  ["shorten", "refine", "regenerate", "shorter", "detailed", "focus_methods", "focus_results"]

/-- The action union type of `refineSummary` in the updated api-client
(the repository file with unknown name, lines 77-79). -/
def refineSummaryActionsUpdatedClient : List String :=
  ["shorten", "refine", "regenerate", "shorter", "detailed", "focus_methods", "focus_results"]

/-- The action union type of `refineSummary` in
`frontend/src/lib/api-client.ts` line 109. -/
def refineSummaryActionsLibClient : List String :=
  ["shorten", "refine", "regenerate"]

/-- The `RefinementAction` union type of the services layer. -/
def refineSummaryActionsServiceClient : List String :=
  ["shorten", "refine", "regenerate"]

/-! C2: the function handleRefine in EnhancedSummaryDisplay.tsx (lines 98-122) -/

/-- The `content` object of a summary as held by the component
(`EnhancedSummaryDisplayProps`). -/
structure SummaryContent where
  overview : String
  keyInsights : String
  risks : String
  recommendations : String
  extractiveSummary : Option String
  abstractiveSummary : Option String
  deriving DecidableEq, Repr

/-- A toast notification as raised by the component's `toast` calls. -/
structure Toast where
  title : String
  description : String
  destructive : Bool
  deriving DecidableEq, Repr

/-- Component-local state relevant to `handleRefine`: the currently
displayed summary content, the per-action loading flags, and the toasts
raised so far. -/
structure DisplayState where
  content : SummaryContent
  loading : String → Bool
  toasts : List Toast

/-- Function `handleRefine` from `EnhancedSummaryDisplay.tsx` lines 98-122, with the
network call's outcome passed in explicitly (`Except.ok` carries the
refreshed `result.content`).  The loading flag for `action` is set in front
of the call and cleared in the `finally` block; `setCurrentSummary` runs
only in the `try` branch, the `catch` branch only raises a destructive
toast. -/
def handleRefine (st : DisplayState) (action : String)
    (result : Except String SummaryContent) : DisplayState :=
  let cleared : String → Bool := fun a => if a = action then false else st.loading a
  match result with
  | .ok c =>
      { content := c
        loading := cleared
        toasts := st.toasts ++
          [{ title := "Summary updated!"
             description := "Successfully applied " ++ action ++ " refinement"
             destructive := false }] }
  | .error m =>
      { content := st.content
        loading := cleared
        toasts := st.toasts ++
          [{ title := "Error"
             description := if m.isEmpty then "Failed to " ++ action ++ " summary" else m
             destructive := true }] }

/-- Modelled from the spec: the stored record's content fields on the
backend (`app/routes/summarize.py` / the Summary Store are not under the
source tree).  Specification section 4.5: refinement "overwrites the
affected content fields on success"; "on failure the record is left
untouched and an error is surfaced". -/
def refineStoredRecord (stored : SummaryContent)
    (result : Except String SummaryContent) : SummaryContent :=
  match result with
  | .ok c => c
  | .error _ => stored

/-! C7: authenticated client operations

From `frontend/src/lib/api-client.ts` (fetch + token guard in every
operation) and `frontend/src/services/api.ts` lines 43-58 (axios response
interceptor). -/

/-- An HTTP request as assembled by the api-client functions. -/
structure Request where
  method : String
  path : String
  bearer : String
  deriving DecidableEq, Repr

/-- An HTTP response as consumed by the api-client functions: `ok` mirrors
`response.ok`, `errMessage` mirrors `errorData.error?.message`. -/
structure Response where
  ok : Bool
  body : String
  errMessage : Option String
  deriving DecidableEq, Repr

/-- Outcome of one api-client operation: whether `fetch` was invoked at
all, and the value returned or the error thrown. -/
structure FetchOutcome where
  sent : Bool
  result : Except String String
  deriving Repr

/-- Shared response handling of the api-client operations: on a non-ok
response, throw the server-supplied message or the operation's default. -/
def runFetch (req : Request) (defaultErr : String)
    (net : Request → Response) : FetchOutcome :=
  let r := net req
  { sent := true
    result := if r.ok then .ok r.body else .error (r.errMessage.getD defaultErr) }

/-- Operation `uploadAndSummarize` (`api-client.ts` lines 44-102): token guard, then
`POST /api/summarize`. -/
def uploadAndSummarize (token : Option String) (net : Request → Response) : FetchOutcome :=
  match token with
  | none => { sent := false, result := .error "Not authenticated" }
  | some t => runFetch { method := "POST", path := "/api/summarize", bearer := t }
      "Failed to generate summary" net

/-- Operation `refineSummary` (`api-client.ts` lines 107-149): token guard, then
`POST /api/summaries/{id}/refine`. -/
def refineSummaryOp (summaryId : String) (token : Option String)
    (net : Request → Response) : FetchOutcome :=
  match token with
  | none => { sent := false, result := .error "Not authenticated" }
  | some t => runFetch
      { method := "POST", path := "/api/summaries/" ++ summaryId ++ "/refine", bearer := t }
      "Failed to refine summary" net

/-- Operation `getSummaryHistory` (`api-client.ts` lines 154-193): token guard, then
`GET /api/summaries?limit=&offset=`. -/
def getSummaryHistory (limit offset : Nat) (token : Option String)
    (net : Request → Response) : FetchOutcome :=
  match token with
  | none => { sent := false, result := .error "Not authenticated" }
  | some t => runFetch
      { method := "GET"
        path := "/api/summaries?limit=" ++ toString limit ++ "&offset=" ++ toString offset
        bearer := t }
      "Failed to fetch summaries" net

/-- Operation `getSummary` (`api-client.ts` lines 198-238): token guard, then
`GET /api/summaries/{id}`. -/
def getSummaryOp (summaryId : String) (token : Option String)
    (net : Request → Response) : FetchOutcome :=
  match token with
  | none => { sent := false, result := .error "Not authenticated" }
  | some t => runFetch
      { method := "GET", path := "/api/summaries/" ++ summaryId, bearer := t }
      "Failed to fetch summary" net

/-- The network part of `downloadSummary` (`api-client.ts` lines 243-285):
token guard, then `GET /api/summaries/{id}/download?format=`. -/
def downloadSummaryOp (summaryId format : String) (token : Option String)
    (net : Request → Response) : FetchOutcome :=
  match token with
  | none => { sent := false, result := .error "Not authenticated" }
  | some t => runFetch
      { method := "GET"
        path := "/api/summaries/" ++ summaryId ++ "/download?format=" ++ format
        bearer := t }
      "Failed to download summary" net

/-- Operation `deleteSummary` (`api-client.ts` lines 290-314): token guard, then
`DELETE /api/summaries/{id}`. -/
def deleteSummaryOp (summaryId : String) (token : Option String)
    (net : Request → Response) : FetchOutcome :=
  match token with
  | none => { sent := false, result := .error "Not authenticated" }
  | some t => runFetch
      { method := "DELETE", path := "/api/summaries/" ++ summaryId, bearer := t }
      "Failed to delete summary" net

/-- An axios error as seen by the response interceptor
(`error.response?.status`). -/
structure AxiosError where
  status : Option Nat
  deriving DecidableEq, Repr

/-- The axios response interceptor of `services/api.ts` lines 43-58: on a
401 response it sets `window.location.href = '/login'`; every error is
re-rejected (passed through). -/
def responseInterceptor (result : Except AxiosError String) :
    Option String × Except AxiosError String :=
  match result with
  | .ok r => (none, .ok r)
  | .error e => (if e.status = some 401 then some "/login" else none, .error e)

/-! C9: download filename logic

From `frontend/src/lib/api-client.ts` lines 267-277 (Content-Disposition
parsing with `summary.{format}` fallback) and the services layer's
`downloadSummary` (fixed `summary_{id8}.{format}` name). -/

/-- Remainder of `cs` after the first occurrence of `pat`, if any
(the position where a regex search first places a literal). -/
def afterFirst (pat : List Char) : List Char → Option (List Char)
  | [] => if pat.isEmpty then some [] else none
  | c :: rest =>
      if litPrefixEq pat (c :: rest) then some ((c :: rest).drop pat.length)
      else afterFirst pat rest

/-- Drop reversed characters up to and including the first `"`; on the
reversed remainder this isolates the text before the last quote. -/
def dropToQuoteRev : List Char → Option (List Char)
  | [] => none
  | c :: rest => if c = '"' then some rest else dropToQuoteRev rest

/-- The client-side regex `/filename="(.+)"/` applied to a
Content-Disposition header value: the greedy capture is the nonempty text
between the first `filename="` and the last following `"`. -/
def parseContentDispositionFilename (header : String) : Option String :=
  match afterFirst "filename=\"".data header.data with
  | none => none
  | some rest =>
      match dropToQuoteRev rest.reverse with
      | none => none
      | some revName => if revName.isEmpty then none else some ⟨revName.reverse⟩

/-- The filename under which `downloadSummary` in
`frontend/src/lib/api-client.ts` saves the blob (lines 268-270):
the captured Content-Disposition filename when the header is present and
matches, otherwise `summary.{format}`. -/
def savedFilenameLibClient (contentDisposition : Option String) (format : String) : String :=
  match contentDisposition with
  | none => "summary." ++ format
  | some h =>
      match parseContentDispositionFilename h with
      | some f => f
      | none => "summary." ++ format

/-- The filename under which the services layer's `downloadSummary` saves
the blob: `summary_${summaryId.substring(0, 8)}.${format}`, ignoring the
Content-Disposition header entirely. -/
def savedFilenameServiceClient (summaryId format : String) : String :=
  "summary_" ++ (⟨summaryId.data.take 8⟩ : String) ++ "." ++ format

/-! C10: the function highlightText in EnhancedSummaryDisplay.tsx (lines 155-170)

The JavaScript code interpolates each keyword UNESCAPED into
`new RegExp("\\b(" ++ keyword ++ ")\\b", "gi")` and replaces every match
with a `<mark>` wrapper.  A keyword is therefore interpreted as a regular
expression, not as a literal string: a metacharacter keyword such as
`c.t` matches text containing no literal occurrence of the keyword, and
an invalid fragment such as `(` makes the RegExp constructor throw.

The model compiles a keyword into a sequence of one-character regex
tokens: a self-denoting character compiles to a literal token, the dot
metacharacter to a wildcard token, and any other metacharacter makes the
compilation fail (`none`) — such keywords are outside the model (the
program may throw there, as for an unbalanced bracket, or apply regex
operators not modelled here), and no theorem below concerns them.  The
global replace scans left to right; `\b` is a change of wordness between
adjacent positions, an empty pattern (empty keyword) matches at every
word boundary and the scan then advances one character, as the JavaScript
global-replace loop does on empty matches.

The literal matcher `hlMatch`/`occursWB` below expresses the claim's own
notion of a case-insensitive word-boundary occurrence of the keyword
string; it coincides with the compiled-pattern matcher exactly for
nonempty metacharacter-free keywords. -/

/-- One-character regex token arising from interpolating a keyword:
a literal character or the dot wildcard. -/
inductive RTok where
  | lit : Char → RTok
  | dot : RTok
  deriving DecidableEq, Repr

/-- Characters that denote themselves inside a JavaScript regular
expression (conservative whitelist: letters, digits, underscore, space,
hyphen, comma). -/
def selfDenoting (c : Char) : Bool :=
  c.isAlpha || c.isDigit || c = '_' || c = ' ' || c = '-' || c = ','

/-- Compilation of an interpolated keyword to a token sequence:
self-denoting characters become literal tokens, the dot becomes the
wildcard, any other metacharacter is outside the model (`none`). -/
def compileKeyword : List Char → Option (List RTok)
  | [] => some []
  | c :: cs =>
      if selfDenoting c then (compileKeyword cs).map (fun p => RTok.lit c :: p)
      else if c = '.' then (compileKeyword cs).map (fun p => RTok.dot :: p)
      else none

/-- Whether a token matches a text character, under the `i` flag: literals
match case-insensitively, the dot matches everything except line
terminators. -/
def rtokMatches (tk : RTok) (c : Char) : Bool :=
  match tk with
  | .lit p => ciCharEq p c
  | .dot => !(c = Char.ofNat 10 || c = Char.ofNat 13 ||
      c = Char.ofNat 8232 || c = Char.ofNat 8233)

/-- Tokenwise match of a compiled pattern against the front of the text. -/
def patPrefixEq : List RTok → List Char → Bool
  | [], _ => true
  | _ :: _, [] => false
  | tk :: tks, c :: cs => rtokMatches tk c && patPrefixEq tks cs

/-- Whether the compiled pattern `\b(pat)\b` matches at the front of `t`,
with `prev` the character immediately before that position: an empty
pattern matches exactly at a word boundary; a nonempty pattern must match
the text tokenwise with a word boundary before the first matched
character and after the last one. -/
def hlMatchR (pat : List RTok) (prev : Option Char) (t : List Char) : Bool :=
  if pat.isEmpty then wordness prev != wordness t.head?
  else patPrefixEq pat t &&
    (wordness prev != wordness t.head?) &&
    (wordness ((t.take pat.length).getLast?) != wordness ((t.drop pat.length).head?))

/-- The opening tag the component inserts around a matched keyword. -/
def markOpenTag : List Char :=
  "<mark class=\"bg-yellow-200 px-1 rounded\">".data

/-- The closing tag the component inserts around a matched keyword. -/
def markCloseTag : List Char :=
  "</mark>".data

/-- There is a match of the compiled pattern somewhere in the text
(the end-of-text position included, where an empty pattern can still
match at a boundary), with `prev` the character before the first scanned
position. -/
def hasWBMatchR (pat : List RTok) (prev : Option Char) : List Char → Bool
  | [] => hlMatchR pat prev []
  | c :: rest => hlMatchR pat prev (c :: rest) || hasWBMatchR pat (some c) rest

/-- One global, left-to-right replace of the compiled pattern in the text,
fuelled so the recursion is structural; each step consumes at least one
character and one extra unit covers the end-of-text position, so
`fuel = text.length + 1` suffices.  On an empty-pattern match the marks
are inserted and the scan advances one character, as the JavaScript
global-replace loop does. -/
def hlReplaceAuxR (pat : List RTok) : Nat → Option Char → List Char → List Char
  | 0, _, t => t
  | _ + 1, prev, [] => if hlMatchR pat prev [] then markOpenTag ++ markCloseTag else []
  | fuel + 1, prev, c :: rest =>
      if hlMatchR pat prev (c :: rest) then
        if pat.isEmpty then
          markOpenTag ++ markCloseTag ++ c :: hlReplaceAuxR pat fuel (some c) rest
        else
          markOpenTag ++ (c :: rest).take pat.length ++ markCloseTag ++
            hlReplaceAuxR pat fuel ((c :: rest).take pat.length).getLast?
              ((c :: rest).drop pat.length)
      else c :: hlReplaceAuxR pat fuel (some c) rest

/-- Model of `text.replace(new RegExp("\\b(" ++ kw ++ ")\\b", "gi"),
mark-wrapper)`: the keyword is compiled as a pattern; a keyword outside
the modelled pattern subset yields `none`. -/
def hlReplaceR (kw text : String) : Option String :=
  (compileKeyword kw.data).map
    (fun pat => (⟨hlReplaceAuxR pat (text.data.length + 1) none text.data⟩ : String))

/-- The compiled pattern matches somewhere in the text at a word
boundary. -/
def occursPat (pat : List RTok) (text : String) : Bool :=
  hasWBMatchR pat none text.data

/-- Literal matcher: whether the keyword STRING `kw` matches at the front
of `t` case-insensitively with word boundaries around it — the notion of
"occurrence of a keyword" used by the claim.  For nonempty keywords of
self-denoting characters this coincides with `hlMatchR` on the compiled
pattern. -/
def hlMatch (kw : List Char) (prev : Option Char) (t : List Char) : Bool :=
  !kw.isEmpty && ciPrefixEq kw t &&
    (wordness prev != wordness t.head?) &&
    (wordness ((t.take kw.length).getLast?) != wordness ((t.drop kw.length).head?))

/-- Literal scan: a case-insensitive word-boundary occurrence of the
keyword string somewhere in the text. -/
def hasWBMatch (kw : List Char) (prev : Option Char) : List Char → Bool
  | [] => false
  | c :: rest => hlMatch kw prev (c :: rest) || hasWBMatch kw (some c) rest

/-- Test that the keyword string `kw` occurs in `text` at a word boundary,
case-insensitively (the claim's literal reading of "occurrence"). -/
def occursWB (kw text : String) : Bool :=
  hasWBMatch kw.data none text.data

/-- Function `highlightText` from `EnhancedSummaryDisplay.tsx` lines
155-170: the identity when highlighting is off or the keyword list is
empty (the guard returns before any RegExp is built), otherwise the
monadic left fold of the per-keyword global pattern replace; `none` when
some keyword falls outside the modelled pattern subset. -/
def highlightText (highlightKeywords : Bool) (text : String)
    (keywords : List String) : Option String :=
  if !highlightKeywords || keywords.isEmpty then some text
  else keywords.foldlM (fun t kw => hlReplaceR kw t) text

/-! C3 and C4: keyword extraction fallback

Modelled from the spec: `_extract_keywords` lives in
`app/services/advanced_summarizer.py`, which is not under the source tree;
only the feature document's snippet is.  Specification section 4.1:
"tokenize text into words of length >= 4 using a simple alphabetic
pattern, lowercase, remove an unspecified stopword set, count frequencies,
return the top N by descending count (ties broken by first-occurrence
order)"; the snippet's pattern is `\b[a-zA-Z]{4,}\b` over the lowercased
text and the counting uses `Counter.most_common`, whose tie order is
insertion (first-occurrence) order. -/

/-- Tokenization of the fallback path: lowercase the text, split it into
maximal alphabetic runs, keep the runs of length at least 4. -/
def tokenizeFallback (text : String) : List String :=
  ((runsBy Char.isAlpha (text.data.map Char.toLower)).filter
    (fun r => 4 ≤ r.length)).map (fun r => (⟨r⟩ : String))

/-- Number of occurrences of a token in the token list. -/
def tokenCount (toks : List String) (t : String) : Nat :=
  toks.count t

/-- Comparison used to rank keywords: `a` before `b` when `a`'s frequency
is at least `b`'s; combined with a stable sort over the first-occurrence
deduplication this yields descending counts with ties in first-occurrence
order, as `Counter.most_common` does. -/
def countDescLE (toks : List String) (a b : String) : Bool :=
  Nat.ble (tokenCount toks b) (tokenCount toks a)

/-- Tokens of the fallback path surviving stopword removal. -/
def filteredTokens (stopwords : List String) (text : String) : List String :=
  (tokenizeFallback text).filter (fun t => decide (t ∉ stopwords))

/-- Modelled from the spec: the frequency-analysis fallback of
`_extract_keywords` (section 4.1), with the stopword set a parameter
because the source leaves it unspecified. -/
def fallbackKeywords (stopwords : List String) (topN : Nat) (text : String) : List String :=
  let toks := filteredTokens stopwords text
  ((uniqFirst toks).mergeSort (countDescLE toks)).take topN

/-- Modelled from the spec: `_extract_keywords` (section 4.1) with the
primary LLM response passed in explicitly; the fallback runs when the
primary path errors or returns an empty list. -/
def extractKeywords (primary : Except String (List String))
    (stopwords : List String) (topN : Nat) (text : String) : List String :=
  match primary with
  | .ok ks => if ks.isEmpty then fallbackKeywords stopwords topN text else ks.take topN
  | .error _ => fallbackKeywords stopwords topN text

/-! C5: extractive selector

Modelled from the spec: `_extractive_summarization` is not under the
source tree.  Specification section 4.2: "split text into sentences (naive
delimiter-based), score each sentence by count of keyword occurrences
(case-insensitive substring ... match), select the top-scoring sentences up
to a ... count budget, re-order by original position for readability."
With a stable descending sort, an all-zero scoring (no sentence contains
any keyword) selects the leading sentences of the document; that is the
single fixed policy of this model. -/

/-- Sentence delimiter of the naive splitter. -/
def isSentenceDelim (c : Char) : Bool :=
  c = '.' || c = '!' || c = '?'

/-- Strip leading and trailing whitespace from a character list. -/
def trimWS (cs : List Char) : List Char :=
  ((cs.dropWhile Char.isWhitespace).reverse.dropWhile Char.isWhitespace).reverse

/-- Naive delimiter-based sentence splitting: pieces between the delimiter
characters, trimmed, with empty pieces dropped. -/
def splitSentences (text : String) : List String :=
  (((runsBy (fun c => !isSentenceDelim c) text.data).map trimWS).filter
    (fun r => !r.isEmpty)).map (fun r => (⟨r⟩ : String))

/-- Sentence score: the number of keywords occurring in the sentence,
case-insensitively. -/
def sentenceScore (keywords : List String) (s : String) : Nat :=
  keywords.countP (fun k => ciSub k.data s.data)

/-- Ranking comparison on position-tagged sentences: higher score first. -/
def scoreDescLE (keywords : List String) (a b : Nat × String) : Bool :=
  Nat.ble (sentenceScore keywords b.2) (sentenceScore keywords a.2)

/-- Position comparison on position-tagged sentences. -/
def posLE (a b : Nat × String) : Bool :=
  Nat.ble a.1 b.1

/-- Modelled from the spec: the Extractive Selector (section 4.2).
Sentences are tagged with their original position, stably sorted by
descending score, cut to the count budget, restored to original order, and
untagged. -/
def extractiveSummarization (budget : Nat) (text : String)
    (keywords : List String) : List String :=
  let sents := splitSentences text
  let picked := ((sents.enum).mergeSort (scoreDescLE keywords)).take budget
  (picked.mergeSort posLE).map Prod.snd

/-! C6: section parser

Modelled from the spec: `_parse_document_sections` is not under the source
tree; the feature document's snippet gives the fixed pattern table, the
`re.search` per pattern, and the `match.group(1)[:1000]` truncation.  The
regex engine itself is abstracted as a search function from pattern and
text to the optional captured group. -/

/-- The fixed table of named section regular expressions.  The `abstract`,
`methodology` and `results` patterns are verbatim from the feature
document; the snippet elides the remaining entries, which are modelled
from the data-model key set (introduction, conclusion) in the same style. -/
def sectionPatterns : List (String × String) :=
  [("abstract", "(?i)abstract[:\\s]+(.*?)(?=\\n\\s*\\n|introduction)"),
   ("introduction", "(?i)introduction[:\\s]+(.*?)(?=methodology|methods)"),
   ("methodology", "(?i)(?:methodology|methods)[:\\s]+(.*?)(?=results)"),
   ("results", "(?i)results[:\\s]+(.*?)(?=discussion|conclusion)"),
   ("conclusion", "(?i)(?:conclusion|conclusions)[:\\s]+(.*?)(?=references|$)")]

/-- Truncation `[:1000]` of a captured section text. -/
def truncateSection (s : String) : String :=
  ⟨s.data.take 1000⟩

/-- Modelled from the spec: `_parse_document_sections` (section 4.4), with
`search pat text` standing for `re.search(pat, text, re.DOTALL)` returning
the first capture group.  A section enters the map only when its pattern
matches, and its value is the captured text truncated to 1000 characters;
no entry is ever present with a null value. -/
def parseDocumentSections (search : String → String → Option String)
    (text : String) : List (String × String) :=
  sectionPatterns.filterMap
    (fun np => (search np.2 text).map (fun m => (np.1, truncateSection m)))

/-! Helper lemmas -/

theorem uniqAux_mem {a : String} : ∀ {l seen : List String},
    a ∈ uniqAux seen l ↔ a ∈ l ∧ a ∉ seen := by
  intro l
  induction l with
  | nil => intro seen; simp [uniqAux]
  | cons t ts ih =>
      intro seen
      by_cases h : t ∈ seen
      · simp only [uniqAux, if_pos h, ih, List.mem_cons]
        constructor
        · rintro ⟨hts, hs⟩; exact ⟨Or.inr hts, hs⟩
        · rintro ⟨hor, hs⟩
          rcases hor with rfl | hts
          · exact absurd h hs
          · exact ⟨hts, hs⟩
      · simp only [uniqAux, if_neg h, List.mem_cons, ih]
        constructor
        · rintro (rfl | ⟨hts, hs⟩)
          · exact ⟨Or.inl rfl, h⟩
          · exact ⟨Or.inr hts, fun hm => hs (Or.inr hm)⟩
        · rintro ⟨hor, hs⟩
          by_cases hat : a = t
          · exact Or.inl hat
          · rcases hor with rfl | hts
            · exact absurd rfl hat
            · exact Or.inr ⟨hts, fun hc => hc.elim hat hs⟩

theorem uniqAux_nodup : ∀ (l seen : List String), (uniqAux seen l).Nodup := by
  intro l
  induction l with
  | nil => intro seen; simp [uniqAux]
  | cons t ts ih =>
      intro seen
      by_cases h : t ∈ seen
      · simpa [uniqAux, if_pos h] using ih seen
      · simp only [uniqAux, if_neg h]
        refine List.nodup_cons.mpr ⟨?_, ih (t :: seen)⟩
        intro hmem
        exact (uniqAux_mem.mp hmem).2 (List.mem_cons_self t seen)

theorem uniqFirst_mem {a : String} {l : List String} : a ∈ uniqFirst l ↔ a ∈ l := by
  simp [uniqFirst, uniqAux_mem]

theorem uniqFirst_nodup (l : List String) : (uniqFirst l).Nodup :=
  uniqAux_nodup l []

theorem countDescLE_trans (toks : List String) :
    ∀ a b c, countDescLE toks a b → countDescLE toks b c → countDescLE toks a c := by
  intro a b c hab hbc
  simp only [countDescLE, Nat.ble_eq] at *
  omega

theorem countDescLE_total (toks : List String) :
    ∀ a b, countDescLE toks a b || countDescLE toks b a := by
  intro a b
  simp only [countDescLE, Nat.ble_eq, Bool.or_eq_true, decide_eq_true_eq]
  omega

theorem runStep_inv (keep : Char → Bool) (c : Char)
    (acc : List Char × List (List Char))
    (h1 : acc.1.all keep)
    (h2 : ∀ r ∈ acc.2, ¬r.isEmpty ∧ r.all keep) :
    (runStep keep c acc).1.all keep ∧
      ∀ r ∈ (runStep keep c acc).2, ¬r.isEmpty ∧ r.all keep := by
  by_cases hk : keep c
  · simp only [runStep, if_pos hk]
    exact ⟨by simp [List.all_cons, hk, h1], h2⟩
  · simp only [runStep, if_neg hk]
    refine ⟨rfl, ?_⟩
    by_cases he : acc.1.isEmpty
    · simpa [he] using h2
    · simp only [he, if_neg]
      intro r hr
      rcases List.mem_cons.mp hr with rfl | hr
      · exact ⟨by simpa using he, h1⟩
      · exact h2 r hr

theorem foldr_runStep_inv (keep : Char → Bool) (cs : List Char) :
    (cs.foldr (runStep keep) ([], [])).1.all keep ∧
      ∀ r ∈ (cs.foldr (runStep keep) ([], [])).2, ¬r.isEmpty ∧ r.all keep := by
  induction cs with
  | nil => exact ⟨rfl, by simp⟩
  | cons c cs ih => exact runStep_inv keep c _ ih.1 ih.2

theorem runsBy_mem {keep : Char → Bool} {cs : List Char} :
    ∀ r ∈ runsBy keep cs, ¬r.isEmpty ∧ r.all keep := by
  intro r hr
  have h := foldr_runStep_inv keep cs
  simp only [runsBy] at hr
  by_cases he : (cs.foldr (runStep keep) ([], [])).1.isEmpty
  · simp only [he, if_pos] at hr
    exact h.2 r hr
  · simp only [he, if_neg] at hr
    rcases List.mem_cons.mp hr with rfl | hr
    · exact ⟨he, h.1⟩
    · exact h.2 r hr

theorem hlReplaceAuxR_of_no_match (pat : List RTok) :
    ∀ (fuel : Nat) (prev : Option Char) (t : List Char),
      hasWBMatchR pat prev t = false → hlReplaceAuxR pat fuel prev t = t := by
  intro fuel
  induction fuel with
  | zero => intro prev t _; rfl
  | succ n ih =>
      intro prev t h
      cases t with
      | nil =>
          simp only [hasWBMatchR] at h
          simp only [hlReplaceAuxR, h, if_neg Bool.false_ne_true]
      | cons c rest =>
          simp only [hasWBMatchR, Bool.or_eq_false_iff] at h
          simp only [hlReplaceAuxR, h.1, if_neg Bool.false_ne_true]
          rw [ih (some c) rest h.2]

theorem hlReplaceR_of_no_match {kw text : String} {pat : List RTok}
    (hc : compileKeyword kw.data = some pat) (h : occursPat pat text = false) :
    hlReplaceR kw text = some text := by
  simp only [occursPat] at h
  simp only [hlReplaceR, hc, Option.map_some']
  congr 1
  apply String.ext
  exact hlReplaceAuxR_of_no_match pat _ _ _ h

theorem foldlM_hlReplaceR_id :
    ∀ (ks : List String) (text : String),
      (∀ kw ∈ ks, ∃ pat, compileKeyword kw.data = some pat ∧ occursPat pat text = false) →
      List.foldlM (fun t kw => hlReplaceR kw t) text ks = some text := by
  intro ks
  induction ks with
  | nil => intro text _; rfl
  | cons k ks ih =>
      intro text h
      obtain ⟨pat, hc, ho⟩ := h k (List.mem_cons_self k ks)
      rw [List.foldlM_cons, hlReplaceR_of_no_match hc ho]
      simpa using ih text (fun kw hkw => h kw (List.mem_cons_of_mem k hkw))

theorem highlightText_id_of_no_pattern_match {text : String} {keywords : List String}
    (h : ∀ kw ∈ keywords, ∃ pat, compileKeyword kw.data = some pat ∧
      occursPat pat text = false) :
    highlightText true text keywords = some text := by
  simp only [highlightText, Bool.not_true, Bool.false_or]
  by_cases he : keywords.isEmpty
  · simp [he]
  · simp only [he, if_neg Bool.false_ne_true]
    exact foldlM_hlReplaceR_id keywords text h

theorem compileKeyword_all_lit :
    ∀ {cs : List Char}, cs.all selfDenoting → compileKeyword cs = some (cs.map RTok.lit) := by
  intro cs h
  induction cs with
  | nil => rfl
  | cons c cs ih =>
      simp only [List.all_cons, Bool.and_eq_true] at h
      simp [compileKeyword, h.1, ih h.2]

theorem patPrefixEq_map_lit :
    ∀ (kw t : List Char), patPrefixEq (kw.map RTok.lit) t = ciPrefixEq kw t := by
  intro kw
  induction kw with
  | nil => intro t; rfl
  | cons p ps ih =>
      intro t
      cases t with
      | nil => rfl
      | cons c cs => simp [patPrefixEq, ciPrefixEq, rtokMatches, ih]

theorem hlMatchR_map_lit {kw : List Char} (hne : kw ≠ []) (prev : Option Char)
    (t : List Char) : hlMatchR (kw.map RTok.lit) prev t = hlMatch kw prev t := by
  have hemp : (kw.map RTok.lit).isEmpty = false := by
    cases kw with
    | nil => exact absurd rfl hne
    | cons p ps => rfl
  have hemp2 : kw.isEmpty = false := by
    cases kw with
    | nil => exact absurd rfl hne
    | cons p ps => rfl
  simp [hlMatchR, hlMatch, hemp, hemp2, patPrefixEq_map_lit, List.length_map]

theorem hasWBMatchR_map_lit {kw : List Char} (hne : kw ≠ []) :
    ∀ (prev : Option Char) (t : List Char),
      hasWBMatchR (kw.map RTok.lit) prev t = hasWBMatch kw prev t := by
  intro prev t
  induction t generalizing prev with
  | nil =>
      simp only [hasWBMatchR, hasWBMatch, hlMatchR_map_lit hne]
      obtain ⟨p, ps, rfl⟩ : ∃ p ps, kw = p :: ps := by
        cases kw with
        | nil => exact absurd rfl hne
        | cons p ps => exact ⟨p, ps, rfl⟩
      simp [hlMatch, ciPrefixEq]
  | cons c rest ih =>
      simp only [hasWBMatchR, hasWBMatch, hlMatchR_map_lit hne, ih]

theorem pairwise_posLE_enumFrom :
    ∀ (n : Nat) (l : List String), (l.enumFrom n).Pairwise (fun a b => posLE a b = true) := by
  intro n l
  induction l generalizing n with
  | nil => simp
  | cons a l ih =>
      simp only [List.enumFrom]
      refine List.Pairwise.cons ?_ (ih (n + 1))
      intro x hx
      have := List.le_fst_of_mem_enumFrom hx
      simp only [posLE, Nat.ble_eq]
      omega

theorem assoc_value_unique {l : List (String × String)}
    (h : (l.map Prod.fst).Nodup) {n p p' : String}
    (h1 : (n, p) ∈ l) (h2 : (n, p') ∈ l) : p = p' := by
  induction l with
  | nil => cases h1
  | cons a t ih =>
      simp only [List.map_cons, List.nodup_cons] at h
      rcases List.mem_cons.mp h1 with e1 | m1 <;> rcases List.mem_cons.mp h2 with e2 | m2
      · exact congrArg Prod.snd (e1.trans e2.symm)
      · exfalso
        apply h.1
        rw [← e1]
        exact List.mem_map.mpr ⟨(n, p'), m2, rfl⟩
      · exfalso
        apply h.1
        rw [← e2]
        exact List.mem_map.mpr ⟨(n, p), m1, rfl⟩
      · exact ih h.2 m1 m2

theorem sectionPatterns_keys_nodup : (sectionPatterns.map Prod.fst).Nodup := by
  decide

/-! Claim theorems -/

/-- C1.  The claim says `memory_type = short_term` iff `is_private`, at
creation and with no operation setting `memory_type` independently of
`is_private`.  The code violates this: a row created relying on the
migration's column defaults holds `is_private = FALSE` together with
`memory_type = 'short_term'`, and the migration's backfill rewrites
`memory_type` to `'long_term'` for every short-term row while never
reading `is_private` — it therefore breaks the invariant on a private
short-term row.  The UI, by contrast, derives the displayed label solely
from the privacy flag.  This theorem evaluates the embedded code at those
failing inputs. -/
theorem C1_memory_type_default_violates_invariant :
    ¬ memoryInvariant insertWithDefaults ∧
    memoryInvariant { is_private := true, memory_type := "short_term" } ∧
    ¬ memoryInvariant (migrationBackfill { is_private := true, memory_type := "short_term" }) ∧
    displayedMemoryLabel true = "Short-term" ∧
    displayedMemoryLabel false = "Long-term" := by
  refine ⟨?_, ?_, ?_, rfl, rfl⟩ <;> decide

/-- C8 counterexample.  The claim says every action of the seven-element
engine set is accepted by the client's `refineSummary`; but the
`refineSummary` of `frontend/src/lib/api-client.ts` declares only
`"shorten" | "refine" | "regenerate"`, so the action `"detailed"` is in
the engine set and not in that client's accepted set. -/
theorem C8_detailed_not_accepted_by_lib_client :
    "detailed" ∈ engineRefinementActions ∧
    "detailed" ∉ refineSummaryActionsLibClient := by
  decide

/-- C8 amended.  The Refinement Engine and the updated api-client's
`refineSummary` accept exactly the enumerated seven-action set; the
`refineSummary` declarations of `frontend/src/lib/api-client.ts` and of
the services layer accept only the three-element subset
`{shorten, refine, regenerate}`, so the four advanced actions
(`shorter`, `detailed`, `focus_methods`, `focus_results`) are not
accepted by those clients. -/
theorem C8_action_sets :
    refineSummaryActionsUpdatedClient = engineRefinementActions ∧
    refineSummaryActionsServiceClient = refineSummaryActionsLibClient ∧
    "shorten" ∈ refineSummaryActionsLibClient ∧
    "refine" ∈ refineSummaryActionsLibClient ∧
    "regenerate" ∈ refineSummaryActionsLibClient ∧
    "shorten" ∈ engineRefinementActions ∧
    "refine" ∈ engineRefinementActions ∧
    "regenerate" ∈ engineRefinementActions ∧
    "shorter" ∉ refineSummaryActionsLibClient ∧
    "detailed" ∉ refineSummaryActionsLibClient ∧
    "focus_methods" ∉ refineSummaryActionsLibClient ∧
    "focus_results" ∉ refineSummaryActionsLibClient := by
  decide

/-- C7.  Every authenticated api-client operation called without a bearer
token throws "Not authenticated" without issuing the HTTP request
(for any behaviour of the network); and the axios response interceptor of
`services/api.ts` redirects to the login route on a 401 response while
re-rejecting the error. -/
theorem C7_auth_guard_and_unauthorized_redirect :
    (∀ net, uploadAndSummarize none net =
      { sent := false, result := .error "Not authenticated" }) ∧
    (∀ id net, refineSummaryOp id none net =
      { sent := false, result := .error "Not authenticated" }) ∧
    (∀ limit offset net, getSummaryHistory limit offset none net =
      { sent := false, result := .error "Not authenticated" }) ∧
    (∀ id net, getSummaryOp id none net =
      { sent := false, result := .error "Not authenticated" }) ∧
    (∀ id fmt net, downloadSummaryOp id fmt none net =
      { sent := false, result := .error "Not authenticated" }) ∧
    (∀ id net, deleteSummaryOp id none net =
      { sent := false, result := .error "Not authenticated" }) ∧
    (∀ e : AxiosError, e.status = some 401 →
      responseInterceptor (.error e) = (some "/login", .error e)) := by
  refine ⟨fun _ => rfl, fun _ _ => rfl, fun _ _ _ => rfl, fun _ _ => rfl,
    fun _ _ _ => rfl, fun _ _ => rfl, ?_⟩
  intro e he
  simp [responseInterceptor, he]

/-- C7 witness: the interceptor applied to a concrete 401 error. -/
theorem C7_auth_guard_witness :
    responseInterceptor (.error { status := some 401 }) = (some "/login", .error { status := some 401 }) :=
  C7_auth_guard_and_unauthorized_redirect.2.2.2.2.2.2 { status := some 401 } rfl

/-- C2.  For every refinement call in `handleRefine`: on failure the
displayed content is exactly the previous content and a destructive error
toast is appended (with the action's loading flag cleared); the stored
record, per the specification's refinement contract, is likewise
untouched on failure; the content fields are overwritten with the call's
result only on success. -/
theorem C2_refine_failure_preserves_content :
    ∀ (st : DisplayState) (stored : SummaryContent) (action : String)
      (r : Except String SummaryContent),
      (∀ m, r = .error m →
        (handleRefine st action r).content = st.content ∧
        refineStoredRecord stored r = stored ∧
        (handleRefine st action r).loading action = false ∧
        ∃ t, (handleRefine st action r).toasts = st.toasts ++ [t] ∧
          t.destructive = true ∧ t.title = "Error") ∧
      (∀ c, r = .ok c →
        (handleRefine st action r).content = c ∧
        refineStoredRecord stored r = c ∧
        (handleRefine st action r).loading action = false) := by
  intro st stored action r
  constructor
  · rintro m rfl
    refine ⟨rfl, rfl, by simp [handleRefine], ?_⟩
    exact ⟨_, rfl, rfl, rfl⟩
  · rintro c rfl
    exact ⟨rfl, rfl, by simp [handleRefine]⟩

/-- C2 witness: a concrete failing refinement leaves the concrete content
in place; a concrete successful one overwrites it. -/
theorem C2_refine_failure_witness :
    (handleRefine
        { content :=
            { overview := "o", keyInsights := "k", risks := "r"
              recommendations := "c", extractiveSummary := none
              abstractiveSummary := none }
          loading := fun _ => false
          toasts := [] }
        "shorten" (.error "boom")).content =
      { overview := "o", keyInsights := "k", risks := "r"
        recommendations := "c", extractiveSummary := none
        abstractiveSummary := none } ∧
    refineStoredRecord
        { overview := "o", keyInsights := "k", risks := "r"
          recommendations := "c", extractiveSummary := none
          abstractiveSummary := none } (.error "boom") =
      { overview := "o", keyInsights := "k", risks := "r"
        recommendations := "c", extractiveSummary := none
        abstractiveSummary := none } :=
  have h := (C2_refine_failure_preserves_content
    { content :=
        { overview := "o", keyInsights := "k", risks := "r"
          recommendations := "c", extractiveSummary := none
          abstractiveSummary := none }
      loading := fun _ => false
      toasts := [] }
    { overview := "o", keyInsights := "k", risks := "r"
      recommendations := "c", extractiveSummary := none
      abstractiveSummary := none }
    "shorten" (.error "boom")).1 "boom" rfl
  ⟨h.1, h.2.1⟩

/-- C10 counterexample.  The keyword is interpolated unescaped into the
regular expression, so the claim fails for a metacharacter keyword: the
text `cat` contains no case-insensitive word-boundary occurrence of the
keyword `c.t`, yet `highlightText` enabled with `["c.t"]` rewrites it —
the compiled pattern `\b(c.t)\b` matches `cat`. -/
theorem C10_metachar_keyword_rewrites :
    occursWB "c.t" "cat" = false ∧
    highlightText true "cat" ["c.t"] =
      some "<mark class=\"bg-yellow-200 px-1 rounded\">cat</mark>" ∧
    highlightText true "cat" ["c.t"] ≠ some "cat" := by
  refine ⟨by decide, by decide, by decide⟩

/-- C10 amended.  `highlightText` returns the input unchanged when
highlighting is disabled or the keyword list is empty (the guard runs
before any RegExp is built, so this holds for every keyword list); when
enabled, the identity holds for keyword lists whose members compile as
patterns with no word-boundary match anywhere in the text — in
particular, for nonempty metacharacter-free keywords with no
case-insensitive word-boundary occurrence in the text.  For keywords with
metacharacters the interpolated pattern can rewrite a text containing no
occurrence of the keyword. -/
theorem C10_highlight_identity_amended :
    ∀ (text : String) (keywords : List String),
      (∀ hl : Bool, hl = false ∨ keywords = [] →
        highlightText hl text keywords = some text) ∧
      ((∀ kw ∈ keywords, ∃ pat, compileKeyword kw.data = some pat ∧
          occursPat pat text = false) →
        highlightText true text keywords = some text) ∧
      ((∀ kw ∈ keywords, kw.data ≠ [] ∧ kw.data.all selfDenoting ∧
          occursWB kw text = false) →
        highlightText true text keywords = some text) := by
  intro text keywords
  refine ⟨?_, ?_, ?_⟩
  · rintro hl (rfl | rfl) <;> simp [highlightText]
  · exact highlightText_id_of_no_pattern_match
  · intro h
    apply highlightText_id_of_no_pattern_match
    intro kw hkw
    obtain ⟨hne, hall, hocc⟩ := h kw hkw
    refine ⟨kw.data.map RTok.lit, compileKeyword_all_lit hall, ?_⟩
    simp only [occursPat, hasWBMatchR_map_lit hne]
    exact hocc

/-- C10 witness: concrete identity cases — highlighting disabled, and a
metacharacter-free keyword with no word-boundary occurrence (including a
mere substring occurrence, which must not be highlighted). -/
theorem C10_highlight_identity_witness :
    highlightText false "the cat sat" ["cat"] = some "the cat sat" ∧
    highlightText true "concatenation of dogs" ["cat"] = some "concatenation of dogs" :=
  ⟨(C10_highlight_identity_amended "the cat sat" ["cat"]).1 false (Or.inl rfl),
   (C10_highlight_identity_amended "concatenation of dogs" ["cat"]).2.2 (by decide)⟩

/-- C9 counterexample.  The claim says every successful download saves the
file under the filename supplied by the server's Content-Disposition
header; the services-layer `downloadSummary`, one of the two download
implementations, ignores that header and always saves under
`summary_{id8}.{format}` — here the server supplies `report.txt` and the
saved name differs from it. -/
theorem C9_service_client_ignores_header :
    parseContentDispositionFilename "attachment; filename=\"report.txt\"" = some "report.txt" ∧
    savedFilenameServiceClient "abcdefgh-1234" "txt" = "summary_abcdefgh.txt" ∧
    savedFilenameServiceClient "abcdefgh-1234" "txt" ≠ "report.txt" := by
  refine ⟨by decide, by decide, by decide⟩

/-- C9 amended.  The lib api-client's `downloadSummary` saves under the
parsed Content-Disposition filename when the header is present and
matches `filename="(.+)"`, and falls back to `summary.{format}` when the
header is absent or unparsable, so its saved name ends in `.{format}`
whenever the server-supplied name does; the services-layer
`downloadSummary` ignores the header and always saves under
`summary_{id8}.{format}`, which unconditionally ends in `.{format}`. -/
theorem C9_saved_filename :
    (∀ fmt : String, savedFilenameLibClient none fmt = "summary." ++ fmt) ∧
    (∀ h f fmt : String, parseContentDispositionFilename h = some f →
      savedFilenameLibClient (some h) fmt = f) ∧
    (∀ h fmt : String, parseContentDispositionFilename h = none →
      savedFilenameLibClient (some h) fmt = "summary." ++ fmt) ∧
    (∀ fmt : String, endsIn ("summary." ++ fmt) ("." ++ fmt)) ∧
    (∀ h f fmt : String, parseContentDispositionFilename h = some f →
      endsIn f ("." ++ fmt) → endsIn (savedFilenameLibClient (some h) fmt) ("." ++ fmt)) ∧
    (∀ id fmt : String, endsIn (savedFilenameServiceClient id fmt) ("." ++ fmt)) := by
  have hsummary : ∀ fmt : String, endsIn ("summary." ++ fmt) ("." ++ fmt) := by
    intro fmt
    simp only [endsIn, String.data_append]
    exact ⟨"summary".data, by simp⟩
  refine ⟨fun fmt => rfl, ?_, ?_, hsummary, ?_, ?_⟩
  · intro h f fmt hp
    simp [savedFilenameLibClient, hp]
  · intro h fmt hp
    simp [savedFilenameLibClient, hp]
  · intro h f fmt hp hf
    simpa [savedFilenameLibClient, hp] using hf
  · intro id fmt
    simp only [savedFilenameServiceClient, endsIn, String.data_append]
    exact ⟨"summary_".data ++ (id.data.take 8), by simp⟩

/-- C9 witness: the lib client at a concrete parsable header, and both
fallback and service-layer names at concrete formats. -/
theorem C9_saved_filename_witness :
    savedFilenameLibClient (some "attachment; filename=\"report.txt\"") "txt" = "report.txt" ∧
    savedFilenameLibClient none "txt" = "summary.txt" ∧
    endsIn (savedFilenameServiceClient "abcdefgh-1234" "txt") (".txt") :=
  ⟨C9_saved_filename.2.1 "attachment; filename=\"report.txt\"" "report.txt" "txt" (by decide),
   C9_saved_filename.1 "txt",
   C9_saved_filename.2.2.2.2.2 "abcdefgh-1234" "txt"⟩

/-- C3.  When the primary LLM path errors or returns empty, the keyword
extractor returns the fallback result, which is an ordered list of at most
`topN` unique keywords: each keyword is an alphabetic token of length at
least 4 taken from the lowercased text with stopwords removed, and the
list is ordered by descending frequency in the token list (the stable
sort over the first-occurrence deduplication breaks frequency ties by
first occurrence, as `Counter.most_common` does). -/
theorem C3_fallback_keyword_extraction :
    ∀ (primary : Except String (List String)) (stopwords : List String)
      (topN : Nat) (text : String),
      (∀ ks, primary = .ok ks → ks = []) →
      extractKeywords primary stopwords topN text = fallbackKeywords stopwords topN text ∧
      (fallbackKeywords stopwords topN text).length ≤ topN ∧
      (fallbackKeywords stopwords topN text).Nodup ∧
      (fallbackKeywords stopwords topN text).Pairwise
        (fun a b => tokenCount (filteredTokens stopwords text) b ≤
          tokenCount (filteredTokens stopwords text) a) ∧
      ∀ kw ∈ fallbackKeywords stopwords topN text,
        kw ∈ tokenizeFallback text ∧ kw ∉ stopwords ∧ 4 ≤ kw.length ∧
          kw.data.all Char.isAlpha := by
  intro primary stopwords topN text h
  refine ⟨?_, ?_, ?_, ?_, ?_⟩
  · cases primary with
    | error e => rfl
    | ok ks =>
        have hks : ks = [] := h ks rfl
        subst hks
        rfl
  · exact List.length_take_le _ _
  · exact List.Nodup.sublist (List.take_sublist _ _)
      (((List.mergeSort_perm _ _).nodup_iff).mpr (uniqFirst_nodup _))
  · apply List.Pairwise.take
    have hs := List.sorted_mergeSort
      (countDescLE_trans (filteredTokens stopwords text))
      (countDescLE_total (filteredTokens stopwords text))
      (uniqFirst (filteredTokens stopwords text))
    exact hs.imp (fun hab => by
      simpa only [countDescLE, Nat.ble_eq, tokenCount] using hab)
  · intro kw hkw
    have h1 : kw ∈ uniqFirst (filteredTokens stopwords text) := by
      have hm := List.take_subset _ _ hkw
      simpa using hm
    have h2 : kw ∈ filteredTokens stopwords text := uniqFirst_mem.mp h1
    have h3 := List.mem_filter.mp h2
    have hstop : kw ∉ stopwords := by simpa using h3.2
    obtain ⟨r, hr, rfl⟩ := List.mem_map.mp h3.1
    have hrf := List.mem_filter.mp hr
    have halpha := (runsBy_mem _ hrf.1).2
    refine ⟨h3.1, hstop, ?_, halpha⟩
    simpa using hrf.2

/-- C3 witness: a failing primary path on a concrete text. -/
theorem C3_fallback_keyword_extraction_witness :
    extractKeywords (.error "LLM failure") ["this"] 15 "alpha beta gamma alpha" =
      fallbackKeywords ["this"] 15 "alpha beta gamma alpha" ∧
    (fallbackKeywords ["this"] 15 "alpha beta gamma alpha").length ≤ 15 ∧
    (fallbackKeywords ["this"] 15 "alpha beta gamma alpha").Nodup :=
  have h := C3_fallback_keyword_extraction (.error "LLM failure") ["this"] 15
    "alpha beta gamma alpha" (fun _ hk => Except.noConfusion hk)
  ⟨h.1, h.2.1, h.2.2.1⟩

/-- C4.  The frequency-based fallback path of the keyword extractor is a
deterministic function of the document text: any two invocations that
trigger the fallback — regardless of how the primary path failed — return
the identical ordered keyword list. -/
theorem C4_fallback_deterministic :
    ∀ (p q : Except String (List String)) (stopwords : List String)
      (topN : Nat) (text : String),
      (∀ ks, p = .ok ks → ks = []) →
      (∀ ks, q = .ok ks → ks = []) →
      extractKeywords p stopwords topN text = extractKeywords q stopwords topN text := by
  intro p q stopwords topN text hp hq
  have reduce : ∀ (r : Except String (List String)), (∀ ks, r = .ok ks → ks = []) →
      extractKeywords r stopwords topN text = fallbackKeywords stopwords topN text := by
    intro r hr
    cases r with
    | error e => rfl
    | ok ks =>
        have hks : ks = [] := hr ks rfl
        subst hks
        rfl
  rw [reduce p hp, reduce q hq]

/-- C4 witness: an erroring primary and an empty primary yield the same
keyword list on the same text. -/
theorem C4_fallback_deterministic_witness :
    extractKeywords (.error "timeout") [] 15 "delta delta echo" =
      extractKeywords (.ok []) [] 15 "delta delta echo" :=
  C4_fallback_deterministic (.error "timeout") (.ok []) [] 15 "delta delta echo"
    (fun _ hk => Except.noConfusion hk)
    (fun ks hk => by injection hk with h; exact h.symm)

/-- C5.  On a document in which no sentence contains any keyword
(in particular when the keyword list is empty) the Extractive Selector
returns a value — it is a total function, so it cannot error — and that
value is the leading sentences of the document up to the count budget:
the single fixed policy of this model, arising from the stable descending
sort over all-zero scores. -/
theorem C5_extractive_no_keyword_leading_sentences :
    ∀ (budget : Nat) (text : String) (keywords : List String),
      (∀ s ∈ splitSentences text, ∀ k ∈ keywords, ciSub k.data s.data = false) →
      extractiveSummarization budget text keywords = (splitSentences text).take budget := by
  intro budget text keywords h
  have hscore : ∀ s ∈ splitSentences text, sentenceScore keywords s = 0 := by
    intro s hs
    simp only [sentenceScore]
    rw [List.countP_eq_zero]
    intro k hk
    simp [h s hs k hk]
  have h1 : (splitSentences text).enum.mergeSort (scoreDescLE keywords) =
      (splitSentences text).enum := by
    apply List.mergeSort_of_sorted
    apply List.pairwise_of_forall_mem_list
    intro a ha b hb
    have hsa := hscore a.2 (List.snd_mem_of_mem_enum ha)
    have hsb := hscore b.2 (List.snd_mem_of_mem_enum hb)
    simp [scoreDescLE, hsa, hsb]
  have h2 : ((splitSentences text).enum.take budget).mergeSort posLE =
      (splitSentences text).enum.take budget := by
    apply List.mergeSort_of_sorted
    exact (pairwise_posLE_enumFrom 0 (splitSentences text)).take
  simp only [extractiveSummarization]
  rw [h1, h2, List.map_take, List.enum_map_snd]

/-- C5 witness: a concrete document and a keyword hitting no sentence. -/
theorem C5_extractive_no_keyword_witness :
    extractiveSummarization 2 "Alpha one. Beta two. Gamma three." ["zzz"] =
      (splitSentences "Alpha one. Beta two. Gamma three.").take 2 :=
  C5_extractive_no_keyword_leading_sentences 2 "Alpha one. Beta two. Gamma three."
    ["zzz"] (by decide)

/-- C6.  The section parser's output map contains a key exactly when the
corresponding pattern matched — soundness: every entry comes from a
pattern of the table that matched, with the captured text truncated to at
most 1000 characters; completeness: every matching pattern's section name
appears in the output with that truncated capture; absence: a section
whose pattern did not match is absent (and, the values being plain
strings, no entry is ever present with a null value). -/
theorem C6_section_parser_shape :
    ∀ (search : String → String → Option String) (text : String),
      (∀ name v, (name, v) ∈ parseDocumentSections search text →
        v.length ≤ 1000 ∧ ∃ pat m, (name, pat) ∈ sectionPatterns ∧
          search pat text = some m ∧ v = truncateSection m) ∧
      (∀ name pat m, (name, pat) ∈ sectionPatterns → search pat text = some m →
        (name, truncateSection m) ∈ parseDocumentSections search text) ∧
      (∀ name pat, (name, pat) ∈ sectionPatterns → search pat text = none →
        ∀ v, (name, v) ∉ parseDocumentSections search text) := by
  intro search text
  have main : ∀ name v, (name, v) ∈ parseDocumentSections search text →
      v.length ≤ 1000 ∧ ∃ pat m, (name, pat) ∈ sectionPatterns ∧
        search pat text = some m ∧ v = truncateSection m := by
    intro name v hv
    simp only [parseDocumentSections, List.mem_filterMap] at hv
    obtain ⟨np, hnp, hsome⟩ := hv
    rw [Option.map_eq_some'] at hsome
    obtain ⟨m, hm, heq⟩ := hsome
    have h1 : np.1 = name := congrArg Prod.fst heq
    have h2 : truncateSection m = v := congrArg Prod.snd heq
    have hmem : (name, np.2) ∈ sectionPatterns := by
      have : (np.1, np.2) ∈ sectionPatterns := hnp
      rw [h1] at this
      exact this
    refine ⟨?_, np.2, m, hmem, hm, h2.symm⟩
    rw [← h2]
    exact List.length_take_le 1000 m.data
  refine ⟨main, ?_, ?_⟩
  · intro name pat m hpat hm
    simp only [parseDocumentSections, List.mem_filterMap]
    exact ⟨(name, pat), hpat, by rw [hm]; rfl⟩
  · intro name pat hpat hnone v hv
    obtain ⟨-, pat', m, hpat', hsome, -⟩ := main name v hv
    rw [assoc_value_unique sectionPatterns_keys_nodup hpat' hpat, hnone] at hsome
    exact Option.noConfusion hsome

/-- C6 witness: a regex engine matching nothing leaves the section absent;
one matching everything puts the truncated capture into the map. -/
theorem C6_section_parser_witness :
    ("results", "x") ∉ parseDocumentSections (fun _ _ => none) "doc" ∧
    ("abstract", truncateSection "sample") ∈
      parseDocumentSections (fun _ _ => some "sample") "doc" ∧
    (truncateSection "sample").length ≤ 1000 :=
  ⟨(C6_section_parser_shape (fun _ _ => none) "doc").2.2 "results"
      "(?i)results[:\\s]+(.*?)(?=discussion|conclusion)" (by decide) rfl "x",
   (C6_section_parser_shape (fun _ _ => some "sample") "doc").2.1 "abstract"
      "(?i)abstract[:\\s]+(.*?)(?=\\n\\s*\\n|introduction)" "sample" (by decide) rfl,
   ((C6_section_parser_shape (fun _ _ => some "sample") "doc").1 "abstract"
      (truncateSection "sample") (by decide)).1⟩

end InsightPDF
